import Mathlib

/-!
Shallow embedding of the progress-reconciliation core of the
javascript-handbook backend:

* `src/src/services/topicService.ts` — `TopicService.getAllTopics`
  (the Progress Reconciler): merges the topic catalog with a user's
  sparse progress records into a view where every catalog item carries a
  status.
* `src/src/services/progressService.ts` — `ProgressService`
  (`getUserProgressById`, `updateTopicStatus`,
  `resetUserProgressByUserId`): the Status Mutator over the Prisma
  `UserProgress` table.
* `src/src/services/libraryService.ts` — `LibraryService.getLibrary`
  runs the identical merge algorithm over the library catalog; the merge
  here (`withDefaultStatus` / `applyProgress`) embeds both.

Store model: the Postgres `UserProgress` table (migration
`CREATE TABLE "UserProgress"` with `user_id TEXT`, `topic_id TEXT`,
`status "ProgressStatus"`, and
`CREATE UNIQUE INDEX ... ON "UserProgress"("user_id", "topic_id")`) is a
list of rows; the auto-generated surrogate `progress_id` column is
omitted since rows are addressed only through the (user_id, topic_id)
unique key.  The topic catalog (`TopicModel.find().lean()`) is a list of
`TopicListSchema`, in store-returned order.
-/

/-- Runtime value of `ProgressStatus.IN_PROGRESS` (enums.ts). -/
def IN_PROGRESS : String := "IN_PROGRESS"

/-- Runtime value of `ProgressStatus.COMPLETED` (enums.ts). -/
def COMPLETED : String := "COMPLETED"

/-- Runtime value of `ProgressStatus.PENDING` (enums.ts); the code's
"not started" default. -/
def PENDING : String := "PENDING"

/-- Membership in the closed `ProgressStatus` enumeration
(`CREATE TYPE "ProgressStatus" AS ENUM ('IN_PROGRESS', 'COMPLETED',
'PENDING')` in the initial migration, matching the TS enum). -/
def validStatus (s : String) : Bool :=
  s == IN_PROGRESS || s == COMPLETED || s == PENDING

/-- One catalog item as returned by `TopicModel.find().lean()`
(`TopicListSchema` in types/topics.ts). -/
structure TopicListSchema where
  topic_id : Int
  title : String
  file_name : String
deriving DecidableEq, Repr

/-- A catalog item annotated with a status, as built by the spreads
`{ ...topic, status: ... }` in `getAllTopics` (`TopicListResponse` in
types/topics.ts). -/
structure TopicListResponse extends TopicListSchema where
  status : String
deriving DecidableEq, Repr

/-- One row of the `UserProgress` table.  `topic_id` is a `TEXT` column
in the migration, hence a string here; `status` is stored as its string
runtime value. -/
structure UserProgressRow where
  user_id : String
  topic_id : String
  status : String
deriving DecidableEq, Repr

/-- One element of the `progressRecords` array that
`getUserProgressById` returns: `{ topic_id: number, status: string }`,
with `topic_id` already converted via `Number(...)`. -/
structure ProgressRecord where
  topic_id : Int
  status : String
deriving DecidableEq, Repr

/-- The uniform response envelope (`ApiResponse<T>` in topicService.ts):
`{ status: 'success' | 'error', data?, message?, error? }`. -/
structure ApiResponse (T : Type) where
  status : String
  data : Option T
  message : Option String
  error : Option String
deriving DecidableEq, Repr

/-- Whitespace stripped by the JavaScript `Number(...)` conversion
before parsing. -/
def isJsSpace (c : Char) : Bool :=
  c == ' ' || c == '\t' || c == '\n' || c == '\r'

/-- Value of a nonempty all-digit character sequence; `none` when the
sequence is empty or contains a non-digit. -/
def digitsVal (cs : List Char) (acc : Nat) : Option Nat :=
  match cs with
  | [] => some acc
  | c :: rest =>
    if c.isDigit then digitsVal rest (acc * 10 + (c.toNat - 48)) else none

/-- Models the JavaScript `Number(s)` conversion applied to the `TEXT`
`topic_id` column, returning `none` where `Number` yields `NaN`.  The
model covers the integer fragment actually produced by the service
(which writes `topic_id` values via number-to-string coercion):
surrounding whitespace is stripped, the empty string converts to `0`, an
optional single sign followed by decimal digits converts to the signed
value, and every other string is unparseable (`NaN`).  Non-integer
numeric literals (decimal points, exponents, hex) do not occur as keys
and are not modelled. -/
def jsNumber (s : String) : Option Int :=
  match ((s.data.dropWhile isJsSpace).reverse.dropWhile isJsSpace).reverse with
  | [] => some 0
  | '-' :: rest =>
    if rest = [] then none else (digitsVal rest 0).map (fun n => -(n : Int))
  | '+' :: rest =>
    if rest = [] then none else (digitsVal rest 0).map (fun n => (n : Int))
  | cs => (digitsVal cs 0).map (fun n => (n : Int))

/-- The `progressRecords.map` body inside
`ProgressService.getUserProgressById`: convert one fetched row, throwing
(`Except.error`) when `Number(rec.topic_id)` is `NaN`, with the message
naming the offending id. -/
def parseRecord (rec : UserProgressRow) : Except String ProgressRecord :=
  match jsNumber rec.topic_id with
  | some n => .ok { topic_id := n, status := rec.status }
  | none => .error ("Invalid topic ID format in progress records: " ++ rec.topic_id)

/-- Sequential conversion of the fetched rows, in order; the first
unparseable row aborts the whole `.map` with its thrown error (JS
evaluates the callback left to right and the throw propagates). -/
def parseRecords (rows : List UserProgressRow) : Except String (List ProgressRecord) :=
  match rows with
  | [] => .ok []
  | r :: rest =>
    match parseRecord r with
    | .error e => .error e
    | .ok p => (parseRecords rest).map (fun ps => p :: ps)

/-- `ProgressService.getUserProgressById`: `findMany` selects the rows
with matching `user_id` (projected to `topic_id`/`status`), each row is
validated/converted, and the result is wrapped in a success envelope;
a conversion failure is rethrown with the same message
(`throw new Error(error.message)`). -/
def getUserProgressById (db : List UserProgressRow) (userId : String) :
    Except String (ApiResponse (List ProgressRecord)) :=
  match parseRecords (db.filter (fun r => r.user_id == userId)) with
  | .error e => .error e
  | .ok recs =>
    .ok { status := "success", data := some recs,
          message := some "Progress records fetched successfully", error := none }

/-- `topics.map((topic) => ({ ...topic, status: ProgressStatus.PENDING }))`
in `getAllTopics` / `getLibrary`. -/
def withDefaultStatus (topics : List TopicListSchema) : List TopicListResponse :=
  topics.map (fun t => { toTopicListSchema := t, status := PENDING })

/-- The in-place mutation performed for one progress record:
`topicsWithStatus.find((t) => t.topic_id === rec.topic_id)` returns the
first matching list element and its `status` field is overwritten; a
record with no matching catalog item changes nothing. -/
def setFirstMatch (ts : List TopicListResponse) (tid : Int) (st : String) :
    List TopicListResponse :=
  match ts with
  | [] => []
  | t :: rest =>
    if t.topic_id = tid then { t with status := st } :: rest
    else t :: setFirstMatch rest tid st

/-- One step of the `userProgress.data?.progressRecords.forEach` loop. -/
def applyProgress (ts : List TopicListResponse) (rec : ProgressRecord) :
    List TopicListResponse :=
  setFirstMatch ts rec.topic_id rec.status

/-- The falsy test `if (!user_id)` on the optional `user_id` parameter:
absent (`undefined`) or the empty string. -/
def isFalsyId : Option String → Bool
  | none => true
  | some s => s == ""

/-- `TopicService.getAllTopics`: fetch the catalog; for a falsy
`user_id` return every item with the default `PENDING` status; otherwise
fetch the user's progress records, default every item to `PENDING`, then
overwrite the status of the first catalog item matching each record.  An
error thrown while fetching progress (the `Number` validation) is caught
and returned as an error envelope carrying the thrown message, with no
data.  `LibraryService.getLibrary` is this same function over the
library catalog. -/
def getAllTopics (topics : List TopicListSchema) (db : List UserProgressRow)
    (user_id : Option String) : ApiResponse (List TopicListResponse) :=
  if isFalsyId user_id then
    { status := "success", data := some (withDefaultStatus topics),
      message := some "Topics fetched successfully", error := none }
  else
    match getUserProgressById db (user_id.getD "") with
    | .error e =>
      { status := "error", data := none,
        message := some "Failed to fetch topics", error := some e }
    | .ok resp =>
      { status := "success",
        data := some ((resp.data.getD []).foldl applyProgress (withDefaultStatus topics)),
        message := some "Topics fetched successfully", error := none }

/-- The `user_id_topic_id` composite unique key of the `UserProgress`
table, used as the `where` of the upsert. -/
def rowKeyMatches (userId : String) (topicId : String) (r : UserProgressRow) : Bool :=
  r.user_id == userId && r.topic_id == topicId

/-- Models `prisma.userProgress.upsert`: if a row with the
(user_id, topic_id) unique key exists, its `status` column is updated,
otherwise a new row is created.  The `status` column has the Postgres
enum type `ProgressStatus` (and the Prisma client validates enum fields
at runtime), so a write with a value outside the enumeration is rejected
by the store and surfaces as a thrown error.  Returns the upserted row
together with the new table state. -/
def upsertUserProgress (db : List UserProgressRow) (userId : String)
    (topicId : String) (status : String) :
    Except String (UserProgressRow × List UserProgressRow) :=
  if validStatus status then
    if db.any (rowKeyMatches userId topicId) then
      .ok ({ user_id := userId, topic_id := topicId, status := status },
           db.map (fun r =>
             if rowKeyMatches userId topicId r then { r with status := status } else r))
    else
      .ok ({ user_id := userId, topic_id := topicId, status := status },
           db ++ [{ user_id := userId, topic_id := topicId, status := status }])
  else
    .error "Invalid value for argument status: expected ProgressStatus"

/-- `ProgressService.updateTopicStatus`: reject falsy parameters
(`!userId || !topicId || !status` — empty strings and the number 0)
with a thrown "Missing required parameters", otherwise perform the
single upsert; a store-level failure is rethrown with the same message.
The pair returned is (thrown-or-returned result, table state after the
call). -/
def updateTopicStatus (db : List UserProgressRow) (userId : String)
    (topicId : Int) (status : String) :
    Except String (ApiResponse UserProgressRow) × List UserProgressRow :=
  if userId = "" ∨ topicId = 0 ∨ status = "" then
    (.error "Missing required parameters", db)
  else
    match upsertUserProgress db userId (toString topicId) status with
    | .error e => (.error e, db)
    | .ok (row, db2) =>
      (.ok { status := "success", data := some row,
             message := some "Progress updated successfully", error := none }, db2)

/-- `ProgressService.resetUserProgressByUserId`:
`deleteMany({ where: { user_id: userId } })` removes exactly the rows of
that user (zero affected rows included) and a success envelope is
returned unconditionally. -/
def resetUserProgressByUserId (db : List UserProgressRow) (userId : String) :
    ApiResponse Unit × List UserProgressRow :=
  ({ status := "success", data := none,
     message := some "User progress reset successfully", error := none },
   db.filter (fun r => !(r.user_id == userId)))

/-- The rows of the store holding progress for one (user, item) key. -/
def recordsFor (db : List UserProgressRow) (userId : String) (topicId : String) :
    List UserProgressRow :=
  db.filter (rowKeyMatches userId topicId)

/-! ### Basic facts about the embedded operations -/

theorem validStatus_ne_empty {s : String} (h : validStatus s = true) : s ≠ "" := by
  intro h'
  subst h'
  simp [validStatus, IN_PROGRESS, COMPLETED, PENDING] at h

theorem setFirstMatch_map_toSchema (ts : List TopicListResponse) (tid : Int) (st : String) :
    (setFirstMatch ts tid st).map (·.toTopicListSchema) = ts.map (·.toTopicListSchema) := by
  induction ts with
  | nil => rfl
  | cons t rest ih =>
    by_cases h : t.topic_id = tid
    · simp [setFirstMatch, h]
    · simp [setFirstMatch, h, ih]

theorem foldl_applyProgress_map_toSchema (recs : List ProgressRecord) :
    ∀ ts : List TopicListResponse,
      (recs.foldl applyProgress ts).map (·.toTopicListSchema) = ts.map (·.toTopicListSchema) := by
  induction recs with
  | nil => intro ts; rfl
  | cons r rest ih =>
    intro ts
    rw [List.foldl_cons, ih]
    exact setFirstMatch_map_toSchema ts r.topic_id r.status

theorem withDefaultStatus_map_toSchema (topics : List TopicListSchema) :
    (withDefaultStatus topics).map (·.toTopicListSchema) = topics := by
  induction topics with
  | nil => rfl
  | cons t rest ih => simp [withDefaultStatus] at ih ⊢; exact ih

theorem getAllTopics_data_toSchema (topics : List TopicListSchema)
    (db : List UserProgressRow) (u : Option String) (view : List TopicListResponse)
    (h : (getAllTopics topics db u).data = some view) :
    view.map (·.toTopicListSchema) = topics := by
  unfold getAllTopics at h
  by_cases hf : isFalsyId u = true
  · simp [hf] at h
    subst h
    exact withDefaultStatus_map_toSchema topics
  · simp [hf] at h
    cases hup : getUserProgressById db (u.getD "") with
    | error e => rw [hup] at h; simp at h
    | ok resp =>
      rw [hup] at h
      simp at h
      subst h
      rw [foldl_applyProgress_map_toSchema]
      exact withDefaultStatus_map_toSchema topics

theorem setFirstMatch_not_mem (ts : List TopicListResponse) (tid : Int) (st : String)
    (h : tid ∉ ts.map (·.topic_id)) : setFirstMatch ts tid st = ts := by
  induction ts with
  | nil => rfl
  | cons t rest ih =>
    simp at h
    have ht : ¬ t.topic_id = tid := fun h' => h.1 h'.symm
    have hrest : tid ∉ rest.map (·.topic_id) := by
      simp
      exact h.2
    simp [setFirstMatch, ht, ih hrest]

theorem setFirstMatch_map_status (topics : List TopicListSchema) (f : Int → String)
    (tid : Int) (st : String) (h : (topics.map (·.topic_id)).Nodup) :
    setFirstMatch (topics.map fun t => { toTopicListSchema := t, status := f t.topic_id })
        tid st
      = topics.map fun t =>
          { toTopicListSchema := t,
            status := if t.topic_id = tid then st else f t.topic_id } := by
  induction topics with
  | nil => rfl
  | cons t rest ih =>
    simp only [List.map_cons, List.nodup_cons] at h
    by_cases ht : t.topic_id = tid
    · simp only [List.map_cons, setFirstMatch, ht, if_true, eq_self_iff_true,
        List.cons.injEq, true_and]
      apply List.map_congr_left
      intro x hx
      have hx' : ¬ x.topic_id = tid := by
        intro he
        exact h.1 (by rw [ht, ← he]; exact List.mem_map_of_mem _ hx)
      simp [hx']
    · simp only [List.map_cons, setFirstMatch, ht, if_false, ite_false,
        List.cons.injEq]
      exact ⟨trivial, ih h.2⟩

theorem foldl_applyProgress_find (topics : List TopicListSchema) :
    ∀ (recs : List ProgressRecord) (f : Int → String),
      (topics.map (·.topic_id)).Nodup →
      (recs.map (·.topic_id)).Nodup →
      recs.foldl applyProgress
          (topics.map fun t => { toTopicListSchema := t, status := f t.topic_id })
        = topics.map fun t =>
            { toTopicListSchema := t,
              status :=
                match recs.find? (fun r => r.topic_id == t.topic_id) with
                | some r => r.status
                | none => f t.topic_id } := by
  intro recs
  induction recs with
  | nil =>
    intro f hcat hrec
    simp [List.find?]
  | cons r rs ih =>
    intro f hcat hrec
    simp only [List.map_cons, List.nodup_cons] at hrec
    rw [List.foldl_cons]
    have hstep : applyProgress
        (topics.map fun t => { toTopicListSchema := t, status := f t.topic_id }) r
        = topics.map fun t =>
            { toTopicListSchema := t,
              status := if t.topic_id = r.topic_id then r.status else f t.topic_id } :=
      setFirstMatch_map_status topics f r.topic_id r.status hcat
    rw [hstep]
    rw [ih (fun id => if id = r.topic_id then r.status else f id) hcat hrec.2]
    apply List.map_congr_left
    intro t ht
    by_cases hmatch : r.topic_id = t.topic_id
    · have hfind : rs.find? (fun r' => r'.topic_id == t.topic_id) = none := by
        rw [List.find?_eq_none]
        intro r' hr'
        simp only [beq_iff_eq]
        intro he
        exact hrec.1 (by rw [hmatch, ← he]; exact List.mem_map_of_mem _ hr')
      simp [List.find?, hmatch, hfind]
    · have hne : (r.topic_id == t.topic_id) = false := by
        simp [hmatch]
      have hne' : ¬ t.topic_id = r.topic_id := fun he => hmatch he.symm
      simp only [List.find?, hne, hne']
      simp [hne']

theorem getAllTopics_of_ok (topics : List TopicListSchema) (db : List UserProgressRow)
    (uid : String) (resp : ApiResponse (List ProgressRecord))
    (huid : uid ≠ "") (hok : getUserProgressById db uid = Except.ok resp) :
    getAllTopics topics db (some uid)
      = { status := "success",
          data := some ((resp.data.getD []).foldl applyProgress (withDefaultStatus topics)),
          message := some "Topics fetched successfully", error := none } := by
  unfold getAllTopics
  have hfalsy : isFalsyId (some uid) = false := by
    simp [isFalsyId, huid]
  rw [hfalsy]
  simp only [Bool.false_eq_true, if_false, Option.getD_some]
  rw [hok]

theorem getAllTopics_of_error (topics : List TopicListSchema) (db : List UserProgressRow)
    (uid : String) (e : String)
    (huid : uid ≠ "") (herr : getUserProgressById db uid = Except.error e) :
    getAllTopics topics db (some uid)
      = { status := "error", data := none,
          message := some "Failed to fetch topics", error := some e } := by
  unfold getAllTopics
  have hfalsy : isFalsyId (some uid) = false := by
    simp [isFalsyId, huid]
  rw [hfalsy]
  simp only [Bool.false_eq_true, if_false, Option.getD_some]
  rw [herr]

theorem getUserProgressById_ok_data (db : List UserProgressRow) (uid : String)
    (resp : ApiResponse (List ProgressRecord))
    (hok : getUserProgressById db uid = Except.ok resp) :
    ∃ recs, resp.data = some recs ∧
      parseRecords (db.filter (fun r => r.user_id == uid)) = Except.ok recs := by
  unfold getUserProgressById at hok
  cases hp : parseRecords (db.filter (fun r => r.user_id == uid)) with
  | error e => rw [hp] at hok; exact absurd hok (by simp)
  | ok recs =>
    rw [hp] at hok
    simp only [Except.ok.injEq] at hok
    exact ⟨recs, by rw [← hok], rfl⟩

theorem parseRecords_error_of_bad (rows : List UserProgressRow)
    (hbad : ∃ r ∈ rows, jsNumber r.topic_id = none) :
    ∃ bad ∈ rows, jsNumber bad.topic_id = none ∧
      parseRecords rows
        = Except.error ("Invalid topic ID format in progress records: " ++ bad.topic_id) := by
  induction rows with
  | nil => obtain ⟨r, hr, _⟩ := hbad; exact absurd hr (by simp)
  | cons r rest ih =>
    cases hj : jsNumber r.topic_id with
    | none =>
      refine ⟨r, by simp, hj, ?_⟩
      simp [parseRecords, parseRecord, hj]
    | some n =>
      have hbad' : ∃ x ∈ rest, jsNumber x.topic_id = none := by
        obtain ⟨x, hx, hxbad⟩ := hbad
        rcases List.mem_cons.mp hx with hxr | hxrest
        · subst hxr; rw [hj] at hxbad; exact absurd hxbad (by simp)
        · exact ⟨x, hxrest, hxbad⟩
      obtain ⟨bad, hmem, hbadnone, herr⟩ := ih hbad'
      refine ⟨bad, List.mem_cons_of_mem r hmem, hbadnone, ?_⟩
      simp only [parseRecords, parseRecord, hj, herr]
      rfl

theorem parseRecords_append_ok (l : List UserProgressRow) (x : UserProgressRow)
    (n : Int) (hx : jsNumber x.topic_id = some n) :
    parseRecords (l ++ [x])
      = (parseRecords l).map (fun ps => ps ++ [{ topic_id := n, status := x.status }]) := by
  induction l with
  | nil =>
    simp only [List.nil_append, parseRecords, parseRecord, hx]
    rfl
  | cons r rest ih =>
    rw [List.cons_append]
    cases hr : parseRecord r with
    | error e =>
      simp only [parseRecords, hr]
      rfl
    | ok p =>
      simp only [parseRecords, hr]
      rw [ih]
      cases hrest : parseRecords rest with
      | error e => rfl
      | ok ps => rfl

theorem rowKeyMatches_set_status (u t st : String) (r : UserProgressRow) :
    rowKeyMatches u t { r with status := st } = rowKeyMatches u t r := rfl

theorem mem_recordsFor (db : List UserProgressRow) (u t : String) (r : UserProgressRow)
    (h : r ∈ recordsFor db u t) : r ∈ db ∧ r.user_id = u ∧ r.topic_id = t := by
  unfold recordsFor at h
  rw [List.mem_filter] at h
  refine ⟨h.1, ?_⟩
  have h2 := h.2
  unfold rowKeyMatches at h2
  simp only [Bool.and_eq_true, beq_iff_eq] at h2
  exact h2

theorem recordsFor_append (db l : List UserProgressRow) (u t : String) :
    recordsFor (db ++ l) u t = recordsFor db u t ++ recordsFor l u t :=
  List.filter_append db l

theorem recordsFor_map_update (db : List UserProgressRow) (u t st : String) :
    recordsFor
        (db.map fun r => if rowKeyMatches u t r then { r with status := st } else r) u t
      = (recordsFor db u t).map (fun r => { r with status := st }) := by
  induction db with
  | nil => rfl
  | cons r rest ih =>
    by_cases h : rowKeyMatches u t r = true
    · have h2 : rowKeyMatches u t { r with status := st } = true := h
      simp only [recordsFor] at ih ⊢
      simp [List.filter_cons, h, h2, ih]
    · simp only [recordsFor] at ih ⊢
      simp [List.filter_cons, h, ih]

theorem recordsFor_singleton_new (u t st : String) :
    recordsFor [{ user_id := u, topic_id := t, status := st }] u t
      = [{ user_id := u, topic_id := t, status := st }] := by
  simp [recordsFor, List.filter_cons, rowKeyMatches]

theorem recordsFor_after_update (db : List UserProgressRow) (u : String) (tid : Int)
    (st : String) (hu : u ≠ "") (ht : tid ≠ 0) (hst : validStatus st = true)
    (hlen : (recordsFor db u (toString tid)).length ≤ 1) :
    (∃ resp, (updateTopicStatus db u tid st).1 = Except.ok resp) ∧
    recordsFor (updateTopicStatus db u tid st).2 u (toString tid)
      = [{ user_id := u, topic_id := toString tid, status := st }] := by
  unfold updateTopicStatus
  have hguard : ¬(u = "" ∨ tid = 0 ∨ st = "") := by
    push_neg
    exact ⟨hu, ht, validStatus_ne_empty hst⟩
  rw [if_neg hguard]
  unfold upsertUserProgress
  rw [if_pos hst]
  by_cases hany : db.any (rowKeyMatches u (toString tid)) = true
  · rw [if_pos hany]
    refine ⟨⟨_, rfl⟩, ?_⟩
    rw [recordsFor_map_update]
    obtain ⟨x, hxdb, hxkey⟩ := List.any_eq_true.mp hany
    have hxmem : x ∈ recordsFor db u (toString tid) :=
      List.mem_filter.mpr ⟨hxdb, hxkey⟩
    have hone : (recordsFor db u (toString tid)).length = 1 := by
      have : 0 < (recordsFor db u (toString tid)).length :=
        List.length_pos.mpr (List.ne_nil_of_mem hxmem)
      omega
    obtain ⟨y, hy⟩ := List.length_eq_one.mp hone
    rw [hy]
    have hymem : y ∈ recordsFor db u (toString tid) := by rw [hy]; simp
    obtain ⟨-, hyu, hyt⟩ := mem_recordsFor db u (toString tid) y hymem
    cases y
    simp only at hyu hyt
    subst hyu hyt
    rfl
  · rw [if_neg hany]
    refine ⟨⟨_, rfl⟩, ?_⟩
    rw [recordsFor_append]
    have hempty : recordsFor db u (toString tid) = [] := by
      rw [recordsFor, List.filter_eq_nil_iff]
      intro a ha hkey
      exact hany (List.any_eq_true.mpr ⟨a, ha, hkey⟩)
    rw [hempty, recordsFor_singleton_new, List.nil_append]

theorem updateTopicStatus_fresh (db : List UserProgressRow) (u : String) (tid : Int)
    (st : String) (hu : u ≠ "") (ht : tid ≠ 0) (hst : validStatus st = true)
    (hfresh : ∀ r ∈ db, rowKeyMatches u (toString tid) r = false) :
    updateTopicStatus db u tid st
      = (Except.ok
          { status := "success",
            data := some { user_id := u, topic_id := toString tid, status := st },
            message := some "Progress updated successfully", error := none },
         db ++ [{ user_id := u, topic_id := toString tid, status := st }]) := by
  unfold updateTopicStatus
  have hguard : ¬(u = "" ∨ tid = 0 ∨ st = "") := by
    push_neg
    exact ⟨hu, ht, validStatus_ne_empty hst⟩
  rw [if_neg hguard]
  unfold upsertUserProgress
  rw [if_pos hst]
  have hany : db.any (rowKeyMatches u (toString tid)) = false := by
    rw [Bool.eq_false_iff]
    intro hx
    obtain ⟨x, hxdb, hxkey⟩ := List.any_eq_true.mp hx
    rw [hfresh x hxdb] at hxkey
    exact Bool.false_ne_true hxkey
  rw [hany]
  simp

/-! ### Concrete fixtures used by the witness theorems -/

/-- A two-item topic catalog. -/
def topicsA : List TopicListSchema :=
  [⟨1, "Vars", "vars"⟩, ⟨2, "Closures", "closures"⟩]

/-- A progress table with rows of two users, one row stale (id 99). -/
def dbA : List UserProgressRow :=
  [⟨"u1", "1", "COMPLETED"⟩, ⟨"u2", "2", "COMPLETED"⟩, ⟨"u1", "99", "IN_PROGRESS"⟩]

/-- The merged view of `topicsA`/`dbA` for user "u1". -/
def viewA : List TopicListResponse :=
  [⟨⟨1, "Vars", "vars"⟩, "COMPLETED"⟩, ⟨⟨2, "Closures", "closures"⟩, "PENDING"⟩]

/-! ### The claims -/

/-- Claim C1: for every user identifier and every catalog, any merged view
the reconciler (`TopicService.getAllTopics`) returns contains exactly one
entry per catalog item — its length equals the catalog's length regardless
of the progress records — and the entries appear in the catalog store's
order (the entry ids coincide positionally with the catalog ids). -/
theorem claim1_coverage (topics : List TopicListSchema) (db : List UserProgressRow)
    (u : Option String) (view : List TopicListResponse)
    (h : (getAllTopics topics db u).data = some view) :
    view.length = topics.length ∧
      view.map (·.topic_id) = topics.map (·.topic_id) := by
  have hframe := getAllTopics_data_toSchema topics db u view h
  constructor
  · rw [← hframe]
    simp
  · have hcomp : view.map (·.topic_id)
        = (view.map (·.toTopicListSchema)).map (·.topic_id) := by
      rw [List.map_map]
      rfl
    rw [hcomp, hframe]

theorem claim1_coverage_witness :
    (getAllTopics topicsA dbA (some "u1")).data = some viewA ∧
      (viewA.length = topicsA.length ∧
        viewA.map (·.topic_id) = topicsA.map (·.topic_id)) :=
  ⟨by decide, claim1_coverage topicsA dbA (some "u1") viewA (by decide)⟩

/-- Claim C10: frame property — every entry of the merged view equals its
catalog item with every field other than `status` unchanged: erasing the
status annotation recovers the catalog exactly, order included.  (In this
pure embedding the reconciler consumes snapshots of the two stores and
returns only the view; it performs no store writes by construction,
matching the read-only queries in the source.) -/
theorem claim10_frame (topics : List TopicListSchema) (db : List UserProgressRow)
    (u : Option String) (view : List TopicListResponse)
    (h : (getAllTopics topics db u).data = some view) :
    view.map (·.toTopicListSchema) = topics :=
  getAllTopics_data_toSchema topics db u view h

theorem claim10_frame_witness :
    (getAllTopics topicsA dbA (some "u1")).data = some viewA ∧
      viewA.map (·.toTopicListSchema) = topicsA :=
  ⟨by decide, claim10_frame topicsA dbA (some "u1") viewA (by decide)⟩

/-- Claim C8: when the user identifier is absent or the empty string
(the falsy test `!user_id`), the reconciler returns a success envelope
holding the full catalog with every item's status defaulted to PENDING,
and raises no error. -/
theorem claim8_anonymous (topics : List TopicListSchema) (db : List UserProgressRow)
    (u : Option String) (h : isFalsyId u = true) :
    getAllTopics topics db u
      = { status := "success", data := some (withDefaultStatus topics),
          message := some "Topics fetched successfully", error := none } ∧
      (withDefaultStatus topics).map (·.toTopicListSchema) = topics ∧
      ∀ v ∈ withDefaultStatus topics, v.status = PENDING := by
  refine ⟨?_, withDefaultStatus_map_toSchema topics, ?_⟩
  · unfold getAllTopics
    rw [h]
    simp
  · intro v hv
    unfold withDefaultStatus at hv
    obtain ⟨t, -, rfl⟩ := List.mem_map.mp hv
    rfl

theorem claim8_anonymous_witness :
    isFalsyId (some "") = true ∧
      (getAllTopics topicsA dbA (some "")
        = { status := "success", data := some (withDefaultStatus topicsA),
            message := some "Topics fetched successfully", error := none } ∧
      (withDefaultStatus topicsA).map (·.toTopicListSchema) = topicsA ∧
      ∀ v ∈ withDefaultStatus topicsA, v.status = PENDING) :=
  ⟨by decide, claim8_anonymous topicsA dbA (some "") (by decide)⟩

/-! ### Branch equations for the mutator -/

theorem updateTopicStatus_missing (db : List UserProgressRow) (uid : String)
    (tid : Int) (st : String) (h : uid = "" ∨ tid = 0 ∨ st = "") :
    updateTopicStatus db uid tid st = (Except.error "Missing required parameters", db) := by
  unfold updateTopicStatus
  rw [if_pos h]

theorem updateTopicStatus_invalid (db : List UserProgressRow) (uid : String)
    (tid : Int) (st : String) (hguard : ¬(uid = "" ∨ tid = 0 ∨ st = ""))
    (hst : validStatus st = false) :
    updateTopicStatus db uid tid st
      = (Except.error "Invalid value for argument status: expected ProgressStatus", db) := by
  unfold updateTopicStatus
  rw [if_neg hguard]
  unfold upsertUserProgress
  rw [hst]
  simp

theorem updateTopicStatus_existing (db : List UserProgressRow) (uid : String)
    (tid : Int) (st : String) (hguard : ¬(uid = "" ∨ tid = 0 ∨ st = ""))
    (hst : validStatus st = true)
    (hany : db.any (rowKeyMatches uid (toString tid)) = true) :
    updateTopicStatus db uid tid st
      = (Except.ok
          { status := "success",
            data := some { user_id := uid, topic_id := toString tid, status := st },
            message := some "Progress updated successfully", error := none },
         db.map fun r =>
           if rowKeyMatches uid (toString tid) r then { r with status := st } else r) := by
  unfold updateTopicStatus
  rw [if_neg hguard]
  unfold upsertUserProgress
  rw [if_pos hst, if_pos hany]

theorem updateTopicStatus_new (db : List UserProgressRow) (uid : String)
    (tid : Int) (st : String) (hguard : ¬(uid = "" ∨ tid = 0 ∨ st = ""))
    (hst : validStatus st = true)
    (hany : db.any (rowKeyMatches uid (toString tid)) = false) :
    updateTopicStatus db uid tid st
      = (Except.ok
          { status := "success",
            data := some { user_id := uid, topic_id := toString tid, status := st },
            message := some "Progress updated successfully", error := none },
         db ++ [{ user_id := uid, topic_id := toString tid, status := st }]) := by
  unfold updateTopicStatus
  rw [if_neg hguard]
  unfold upsertUserProgress
  rw [if_pos hst, hany]
  simp

/-- Claim C3: `updateTopicStatus` only accepts statuses from the closed
enumeration {PENDING (representing "not started"), IN_PROGRESS,
COMPLETED}: a call whose status lies outside it fails — the empty string
at the falsy-parameter check, any other value at the store's enum-typed
column — and leaves the table untouched; consequently a table all of
whose rows carry enumeration statuses still does after any call. -/
theorem claim3_closed_enum (db : List UserProgressRow) (uid : String) (tid : Int)
    (st : String) :
    (validStatus st = false →
      (∃ e, (updateTopicStatus db uid tid st).1 = Except.error e) ∧
        (updateTopicStatus db uid tid st).2 = db) ∧
    ((∀ r ∈ db, validStatus r.status = true) →
      ∀ r ∈ (updateTopicStatus db uid tid st).2, validStatus r.status = true) := by
  by_cases hguard : uid = "" ∨ tid = 0 ∨ st = ""
  · rw [updateTopicStatus_missing db uid tid st hguard]
    exact ⟨fun _ => ⟨⟨_, rfl⟩, rfl⟩, fun h => h⟩
  · by_cases hst : validStatus st = true
    · constructor
      · intro hf
        rw [hst] at hf
        exact absurd hf (by simp)
      · intro hall r hr
        by_cases hany : db.any (rowKeyMatches uid (toString tid)) = true
        · rw [updateTopicStatus_existing db uid tid st hguard hst hany] at hr
          simp only at hr
          obtain ⟨x, hx, hxeq⟩ := List.mem_map.mp hr
          by_cases hk : rowKeyMatches uid (toString tid) x = true
          · rw [if_pos hk] at hxeq
            rw [← hxeq]
            exact hst
          · rw [if_neg hk] at hxeq
            rw [← hxeq]
            exact hall x hx
        · have hany' : db.any (rowKeyMatches uid (toString tid)) = false :=
            Bool.eq_false_iff.mpr hany
          rw [updateTopicStatus_new db uid tid st hguard hst hany'] at hr
          simp only at hr
          rcases List.mem_append.mp hr with h1 | h2
          · exact hall r h1
          · have hr2 : r = { user_id := uid, topic_id := toString tid, status := st } := by
              simpa using h2
            rw [hr2]
            exact hst
    · have hst' : validStatus st = false := Bool.eq_false_iff.mpr hst
      rw [updateTopicStatus_invalid db uid tid st hguard hst']
      exact ⟨fun _ => ⟨⟨_, rfl⟩, rfl⟩, fun hall r hr => hall r hr⟩

theorem claim3_closed_enum_witness :
    validStatus "BANANA" = false ∧
      ((∃ e, (updateTopicStatus dbA "u1" 5 "BANANA").1 = Except.error e) ∧
        (updateTopicStatus dbA "u1" 5 "BANANA").2 = dbA) :=
  ⟨by decide, (claim3_closed_enum dbA "u1" 5 "BANANA").1 (by decide)⟩

/-- Claim C4: if any fetched progress record of the user has an item id
that `Number(...)` cannot parse (`NaN`), the reconciliation fails as a
whole: `getAllTopics` returns an error envelope whose error message names
an offending id, with no merged view (`data = none`), instead of skipping
the bad record and continuing. -/
theorem claim4_parse_fail_closed (topics : List TopicListSchema)
    (db : List UserProgressRow) (uid : String) (r : UserProgressRow)
    (huid : uid ≠ "") (hmem : r ∈ db) (hu : r.user_id = uid)
    (hbad : jsNumber r.topic_id = none) :
    ∃ bad ∈ db, bad.user_id = uid ∧ jsNumber bad.topic_id = none ∧
      getAllTopics topics db (some uid)
        = { status := "error", data := none,
            message := some "Failed to fetch topics",
            error := some ("Invalid topic ID format in progress records: "
              ++ bad.topic_id) } := by
  have hrf : r ∈ db.filter (fun x => x.user_id == uid) :=
    List.mem_filter.mpr ⟨hmem, by simp [hu]⟩
  obtain ⟨bad, hbadmem, hbadnone, herr⟩ :=
    parseRecords_error_of_bad (db.filter (fun x => x.user_id == uid)) ⟨r, hrf, hbad⟩
  have hbadfilter := List.mem_filter.mp hbadmem
  refine ⟨bad, hbadfilter.1, by simpa using hbadfilter.2, hbadnone, ?_⟩
  apply getAllTopics_of_error topics db uid _ huid
  unfold getUserProgressById
  rw [herr]

/-- A progress table holding a corrupt `topic_id` value. -/
def dbBad : List UserProgressRow := [⟨"u1", "abc", "COMPLETED"⟩]

theorem claim4_parse_fail_closed_witness :
    ("u1" ≠ "" ∧ (⟨"u1", "abc", "COMPLETED"⟩ : UserProgressRow) ∈ dbBad ∧
        jsNumber "abc" = none) ∧
      ∃ bad ∈ dbBad, bad.user_id = "u1" ∧ jsNumber bad.topic_id = none ∧
        getAllTopics topicsA dbBad (some "u1")
          = { status := "error", data := none,
              message := some "Failed to fetch topics",
              error := some ("Invalid topic ID format in progress records: "
                ++ bad.topic_id) } :=
  ⟨by decide,
    claim4_parse_fail_closed topicsA dbBad "u1" ⟨"u1", "abc", "COMPLETED"⟩
      (by decide) (by decide) (by decide) (by decide)⟩

/-- Claim C7: `updateTopicStatus` fails with the missing-parameter error
and leaves the table unchanged whenever one of its three inputs is falsy
(empty user id, item id zero — the absent case is the same falsy branch —
or empty status); and a failure of the single store upsert is propagated
unchanged as the call's failure, with the table untouched and no retry
(the upsert is attempted exactly once). -/
theorem claim7_missing_params (db : List UserProgressRow) (uid : String)
    (tid : Int) (st : String) :
    ((uid = "" ∨ tid = 0 ∨ st = "") →
      updateTopicStatus db uid tid st = (Except.error "Missing required parameters", db)) ∧
    (¬(uid = "" ∨ tid = 0 ∨ st = "") →
      ∀ e, upsertUserProgress db uid (toString tid) st = Except.error e →
        updateTopicStatus db uid tid st = (Except.error e, db)) := by
  constructor
  · exact updateTopicStatus_missing db uid tid st
  · intro hguard e herr
    unfold updateTopicStatus
    rw [if_neg hguard, herr]

theorem claim7_missing_params_witness :
    ("" = "" ∨ (5 : Int) = 0 ∨ "COMPLETED" = "") ∧
      updateTopicStatus dbA "" 5 "COMPLETED"
        = (Except.error "Missing required parameters", dbA) :=
  ⟨Or.inl rfl, (claim7_missing_params dbA "" 5 "COMPLETED").1 (Or.inl rfl)⟩

/-- Claim C5: `updateTopicStatus` is an idempotent overwrite upsert:
under the table's (user_id, topic_id) unique key (at most one existing
row for the pair), two sequential calls for the same pair — the same
status twice being the special case A = B — leave exactly one row for
the pair, carrying the status of the second call; no second row is ever
created for the pair. -/
theorem claim5_upsert (db : List UserProgressRow) (uid : String) (tid : Int)
    (stA stB : String) (hu : uid ≠ "") (ht : tid ≠ 0)
    (hA : validStatus stA = true) (hB : validStatus stB = true)
    (hlen : (recordsFor db uid (toString tid)).length ≤ 1) :
    recordsFor (updateTopicStatus (updateTopicStatus db uid tid stA).2 uid tid stB).2
        uid (toString tid)
      = [{ user_id := uid, topic_id := toString tid, status := stB }] := by
  have h1 := recordsFor_after_update db uid tid stA hu ht hA hlen
  have hlen1 :
      (recordsFor (updateTopicStatus db uid tid stA).2 uid (toString tid)).length ≤ 1 := by
    rw [h1.2]
    simp
  exact (recordsFor_after_update _ uid tid stB hu ht hB hlen1).2

theorem claim5_upsert_witness :
    ("u1" ≠ "" ∧ (5 : Int) ≠ 0 ∧ validStatus "IN_PROGRESS" = true ∧
        validStatus "COMPLETED" = true ∧
        (recordsFor ([] : List UserProgressRow) "u1" (toString (5 : Int))).length ≤ 1) ∧
      recordsFor (updateTopicStatus (updateTopicStatus [] "u1" 5 "IN_PROGRESS").2
          "u1" 5 "COMPLETED").2 "u1" (toString (5 : Int))
        = [{ user_id := "u1", topic_id := toString (5 : Int), status := "COMPLETED" }] :=
  ⟨by refine ⟨by decide, by decide, by decide, by decide, by decide⟩,
    claim5_upsert [] "u1" 5 "IN_PROGRESS" "COMPLETED"
      (by decide) (by decide) (by decide) (by decide) (by decide)⟩

/-- Claim C6: `resetUserProgressByUserId` deletes exactly the given
user's rows (a row survives iff it was present and belongs to someone
else), returns a success envelope unconditionally — in particular when
the user has zero rows — and a subsequent `getAllTopics` for that user
returns every catalog item with the default PENDING status. -/
theorem claim6_reset (topics : List TopicListSchema) (db : List UserProgressRow)
    (uid : String) (huid : uid ≠ "") :
    (resetUserProgressByUserId db uid).1.status = "success" ∧
    (∀ r, r ∈ (resetUserProgressByUserId db uid).2 ↔ (r ∈ db ∧ r.user_id ≠ uid)) ∧
    getAllTopics topics (resetUserProgressByUserId db uid).2 (some uid)
      = { status := "success", data := some (withDefaultStatus topics),
          message := some "Topics fetched successfully", error := none } ∧
    ∀ v ∈ withDefaultStatus topics, v.status = PENDING := by
  refine ⟨rfl, ?_, ?_, ?_⟩
  · intro r
    unfold resetUserProgressByUserId
    simp [List.mem_filter]
  · have hfilter : List.filter (fun r => r.user_id == uid)
        (db.filter (fun r => !(r.user_id == uid))) = [] := by
      rw [List.filter_eq_nil_iff]
      intro a ha
      have ha2 := (List.mem_filter.mp ha).2
      simp only [Bool.not_eq_true', beq_eq_false_iff_ne, ne_eq] at ha2
      simpa using ha2
    have hprog : getUserProgressById (resetUserProgressByUserId db uid).2 uid
        = Except.ok
            { status := "success", data := some ([] : List ProgressRecord),
              message := some "Progress records fetched successfully", error := none } := by
      unfold getUserProgressById resetUserProgressByUserId
      simp only
      rw [hfilter]
      rfl
    rw [getAllTopics_of_ok topics _ uid _ huid hprog]
    rfl
  · intro v hv
    unfold withDefaultStatus at hv
    obtain ⟨t, -, rfl⟩ := List.mem_map.mp hv
    rfl

theorem claim6_reset_witness :
    "u1" ≠ "" ∧
      (resetUserProgressByUserId dbA "u1").1.status = "success" ∧
      ((⟨"u2", "2", "COMPLETED"⟩ : UserProgressRow)
          ∈ (resetUserProgressByUserId dbA "u1").2
        ↔ ((⟨"u2", "2", "COMPLETED"⟩ : UserProgressRow) ∈ dbA
            ∧ UserProgressRow.user_id ⟨"u2", "2", "COMPLETED"⟩ ≠ "u1")) ∧
      getAllTopics topicsA (resetUserProgressByUserId dbA "u1").2 (some "u1")
        = { status := "success", data := some (withDefaultStatus topicsA),
            message := some "Topics fetched successfully", error := none } :=
  ⟨by decide,
    (claim6_reset topicsA dbA "u1" (by decide)).1,
    (claim6_reset topicsA dbA "u1" (by decide)).2.1 ⟨"u2", "2", "COMPLETED"⟩,
    (claim6_reset topicsA dbA "u1" (by decide)).2.2.1⟩

/-- Claim C2: in the merged view, a catalog item with no progress record
for the user keeps the default PENDING ("not started") status, and a
catalog item with a matching record (same item id) carries exactly the
status stored in that record — under the catalog's id uniqueness
(`topic_id: { unique: true }` in the Mongoose schema) and the
distinctness of the user's parsed record ids (the store's
(user_id, topic_id) unique key). -/
theorem claim2_status (topics : List TopicListSchema) (db : List UserProgressRow)
    (uid : String) (resp : ApiResponse (List ProgressRecord))
    (recs : List ProgressRecord) (view : List TopicListResponse)
    (huid : uid ≠ "")
    (hok : getUserProgressById db uid = Except.ok resp)
    (hdata : resp.data = some recs)
    (hcat : (topics.map (·.topic_id)).Nodup)
    (hrec : (recs.map (·.topic_id)).Nodup)
    (hview : (getAllTopics topics db (some uid)).data = some view) :
    ∀ t ∈ topics,
      (t.topic_id ∉ recs.map (·.topic_id) →
        ({ toTopicListSchema := t, status := PENDING } : TopicListResponse) ∈ view) ∧
      (∀ r ∈ recs, r.topic_id = t.topic_id →
        ({ toTopicListSchema := t, status := r.status } : TopicListResponse) ∈ view) := by
  rw [getAllTopics_of_ok topics db uid resp huid hok] at hview
  simp only [Option.some.injEq] at hview
  rw [hdata] at hview
  simp only [Option.getD_some] at hview
  unfold withDefaultStatus at hview
  rw [foldl_applyProgress_find topics recs (fun _ => PENDING) hcat hrec] at hview
  subst hview
  intro t htmem
  constructor
  · intro hnot
    have hfind : recs.find? (fun r => r.topic_id == t.topic_id) = none := by
      rw [List.find?_eq_none]
      intro r' hr'
      simp only [beq_iff_eq]
      intro he
      exact hnot (by rw [← he]; exact List.mem_map_of_mem _ hr')
    have hmem := List.mem_map_of_mem
      (fun t' : TopicListSchema =>
        ({ toTopicListSchema := t',
           status :=
             match recs.find? (fun r => r.topic_id == t'.topic_id) with
             | some r => r.status
             | none => PENDING } : TopicListResponse)) htmem
    simp only [hfind] at hmem
    exact hmem
  · intro r hr heq
    have hsome : (recs.find? (fun r' => r'.topic_id == t.topic_id)).isSome :=
      List.find?_isSome.mpr ⟨r, hr, by simp [heq]⟩
    obtain ⟨r', hr'⟩ := Option.isSome_iff_exists.mp hsome
    have hr'prop := List.find?_some hr'
    have hr'mem := List.mem_of_find?_eq_some hr'
    simp only [beq_iff_eq] at hr'prop
    have hrr : r' = r :=
      List.inj_on_of_nodup_map hrec hr'mem hr (by rw [hr'prop, heq])
    have hmem := List.mem_map_of_mem
      (fun t' : TopicListSchema =>
        ({ toTopicListSchema := t',
           status :=
             match recs.find? (fun r'' => r''.topic_id == t'.topic_id) with
             | some r'' => r''.status
             | none => PENDING } : TopicListResponse)) htmem
    simp only [hr', hrr] at hmem
    exact hmem

/-- The user "u1" progress records of `dbA`, parsed. -/
def recsA : List ProgressRecord := [⟨1, "COMPLETED"⟩, ⟨99, "IN_PROGRESS"⟩]

/-- The success envelope `getUserProgressById dbA "u1"` returns. -/
def respA : ApiResponse (List ProgressRecord) :=
  { status := "success", data := some recsA,
    message := some "Progress records fetched successfully", error := none }

theorem claim2_status_witness :
    ("u1" ≠ "" ∧
      getUserProgressById dbA "u1" = Except.ok respA ∧
      respA.data = some recsA ∧
      (topicsA.map (·.topic_id)).Nodup ∧
      (recsA.map (·.topic_id)).Nodup ∧
      (getAllTopics topicsA dbA (some "u1")).data = some viewA) ∧
    ((⟨⟨2, "Closures", "closures"⟩, PENDING⟩ : TopicListResponse) ∈ viewA ∧
      (⟨⟨1, "Vars", "vars"⟩, "COMPLETED"⟩ : TopicListResponse) ∈ viewA) :=
  ⟨⟨by decide, rfl, rfl, by decide, by decide, by decide⟩,
    (claim2_status topicsA dbA "u1" respA recsA viewA
        (by decide) rfl rfl (by decide) (by decide) (by decide)
        ⟨2, "Closures", "closures"⟩ (by decide)).1 (by decide),
    (claim2_status topicsA dbA "u1" respA recsA viewA
        (by decide) rfl rfl (by decide) (by decide) (by decide)
        ⟨1, "Vars", "vars"⟩ (by decide)).2 ⟨1, "COMPLETED"⟩ (by decide) (by decide)⟩

theorem view_ids_eq_of_toSchema (view : List TopicListResponse)
    (topics : List TopicListSchema)
    (h : view.map (·.toTopicListSchema) = topics) :
    view.map (·.topic_id) = topics.map (·.topic_id) := by
  have hcomp : view.map (·.topic_id)
      = (view.map (·.toTopicListSchema)).map (·.topic_id) := by
    rw [List.map_map]
    rfl
  rw [hcomp, h]

/-- Claim C9: `updateTopicStatus` for an item id absent from the catalog
raises no error — it creates the row normally (here: first write for the
(user, item) pair) — and the stale row is silently ignored by the
reconciler: the merged view is exactly what it was without the row, and
no view entry carries that item id. -/
theorem claim9_stale (topics : List TopicListSchema) (db : List UserProgressRow)
    (uid : String) (tid : Int) (st : String) (m : Int)
    (huid : uid ≠ "") (htid : tid ≠ 0) (hst : validStatus st = true)
    (hparse : jsNumber (toString tid) = some m)
    (hnot : m ∉ topics.map (·.topic_id))
    (hfresh : ∀ r ∈ db, rowKeyMatches uid (toString tid) r = false) :
    (∃ resp, (updateTopicStatus db uid tid st).1 = Except.ok resp
      ∧ resp.status = "success") ∧
    getAllTopics topics (updateTopicStatus db uid tid st).2 (some uid)
      = getAllTopics topics db (some uid) ∧
    (∀ view, (getAllTopics topics db (some uid)).data = some view →
      ∀ v ∈ view, v.topic_id ≠ m) := by
  have hupd := updateTopicStatus_fresh db uid tid st huid htid hst hfresh
  refine ⟨?_, ?_, ?_⟩
  · rw [hupd]
    exact ⟨_, rfl, rfl⟩
  · rw [hupd]
    have hfiltapp :
        (db ++ [({ user_id := uid, topic_id := toString tid, status := st }
            : UserProgressRow)]).filter (fun r => r.user_id == uid)
          = db.filter (fun r => r.user_id == uid)
              ++ [({ user_id := uid, topic_id := toString tid, status := st }
                : UserProgressRow)] := by
      rw [List.filter_append]
      simp [List.filter_cons]
    cases hpr : parseRecords (db.filter (fun r => r.user_id == uid)) with
    | error e =>
      have h1 : getUserProgressById
          (db ++ [{ user_id := uid, topic_id := toString tid, status := st }]) uid
            = Except.error e := by
        unfold getUserProgressById
        rw [hfiltapp, parseRecords_append_ok _ _ m hparse, hpr]
        rfl
      have h2 : getUserProgressById db uid = Except.error e := by
        unfold getUserProgressById
        rw [hpr]
      rw [getAllTopics_of_error _ _ _ _ huid h1, getAllTopics_of_error _ _ _ _ huid h2]
    | ok recs =>
      have h1 : getUserProgressById
          (db ++ [{ user_id := uid, topic_id := toString tid, status := st }]) uid
            = Except.ok
                { status := "success",
                  data := some (recs ++ [{ topic_id := m, status := st }]),
                  message := some "Progress records fetched successfully",
                  error := none } := by
        unfold getUserProgressById
        rw [hfiltapp, parseRecords_append_ok _ _ m hparse, hpr]
        rfl
      have h2 : getUserProgressById db uid
          = Except.ok
              { status := "success", data := some recs,
                message := some "Progress records fetched successfully",
                error := none } := by
        unfold getUserProgressById
        rw [hpr]
      rw [getAllTopics_of_ok _ _ _ _ huid h1, getAllTopics_of_ok _ _ _ _ huid h2]
      have hids : (List.foldl applyProgress (withDefaultStatus topics) recs).map
          (·.topic_id) = topics.map (·.topic_id) := by
        apply view_ids_eq_of_toSchema
        rw [foldl_applyProgress_map_toSchema, withDefaultStatus_map_toSchema]
      have hfold : List.foldl applyProgress (withDefaultStatus topics)
          (recs ++ [{ topic_id := m, status := st }])
            = List.foldl applyProgress (withDefaultStatus topics) recs := by
        rw [List.foldl_append, List.foldl_cons, List.foldl_nil]
        apply setFirstMatch_not_mem
        rw [hids]
        exact hnot
      simp only [Option.getD_some, hfold]
  · intro view hview v hv
    have hframe := getAllTopics_data_toSchema topics db (some uid) view hview
    intro he
    apply hnot
    rw [← he, ← hframe]
    have : v.topic_id = v.toTopicListSchema.topic_id := rfl
    rw [this]
    exact List.mem_map_of_mem _ (List.mem_map_of_mem _ hv)

theorem claim9_stale_witness :
    ("u1" ≠ "" ∧ (99 : Int) ≠ 0 ∧ validStatus "COMPLETED" = true ∧
        jsNumber (toString (99 : Int)) = some 99 ∧
        (99 : Int) ∉ topicsA.map (·.topic_id) ∧
        ∀ r ∈ ([] : List UserProgressRow),
          rowKeyMatches "u1" (toString (99 : Int)) r = false) ∧
      ((∃ resp, (updateTopicStatus [] "u1" 99 "COMPLETED").1 = Except.ok resp
          ∧ resp.status = "success") ∧
        getAllTopics topicsA (updateTopicStatus [] "u1" 99 "COMPLETED").2 (some "u1")
          = getAllTopics topicsA [] (some "u1") ∧
        (∀ view, (getAllTopics topicsA [] (some "u1")).data = some view →
          ∀ v ∈ view, v.topic_id ≠ 99)) :=
  ⟨⟨by decide, by decide, by decide, by decide, by decide, by decide⟩,
    claim9_stale topicsA [] "u1" 99 "COMPLETED" 99
      (by decide) (by decide) (by decide) (by decide) (by decide) (by decide)⟩
